import Mathlib

/-!
Shallow embedding of `aruba-bulk-add.py` (single-file Python program that bulk
renames/regroups Aruba access points over SSH).

The embedded parts are the pure computational core of the program:

* `str_grouper` / `convert_mac` — MAC normalization (`str_grouper(2, ...)`,
  `convert_mac`).
* the per-line parsing performed by `create_table` on the output of
  `show ap database long group {g}`.
* one reconciliation round of `apply_conf_csv`: the loop body that partitions
  the loaded CSV rows into dropped / resolved (renamed+regrouped) / still
  needed, plus the `.swp`-then-`os.rename` persistence step.

External effects are made explicit: the controller is an oracle
`out : String → String` mapping the normalized MAC used in the
`show ap database long | include {mac}` query to the raw text the query
returns, and the filesystem is a map from path to optional content.
-/

/-- Python's `needle in hay` substring test on the underlying character
lists: true iff `n` occurs as a contiguous (possibly empty) subsequence. -/
def containsSub (n : List Char) : List Char → Bool
  | [] => n.isEmpty
  | c :: rest => n.isPrefixOf (c :: rest) || containsSub n rest

/-- Python `needle in hay` for strings (`"" in s` is `True` for every `s`). -/
def pyIn (needle hay : String) : Bool :=
  containsSub needle.data hay.data

/-- Python `s.lower()` (ASCII case folding, applied character by character). -/
def pyLower (s : String) : String :=
  String.mk (s.data.map Char.toLower)

/-- Python `s[:n]` for nonnegative `n`. -/
def pyTake (n : Nat) (s : String) : String :=
  String.mk (s.data.take n)

/-- Python `s[-n:]` for positive `n`: the last `n` characters (the whole
string when it is shorter than `n`). -/
def pyTakeLast (n : Nat) (s : String) : String :=
  String.mk (s.data.drop (s.data.length - n))

/-- Python `s[:-n]` for positive `n`: the string without its last `n`
characters (empty when it is shorter than `n`). -/
def pyDropLast (n : Nat) (s : String) : String :=
  String.mk (s.data.take (s.data.length - n))

/-- Fuel-driven worker for `str_grouper`; the fuel is instantiated with the
length of the list, which always suffices, so this computes exactly the
unbounded chunking recursion while remaining structurally recursive. -/
def str_grouperF (n : Nat) : Nat → List Char → List (List Char)
  | 0, _ => []
  | fuel + 1, l =>
    if 0 < n ∧ n ≤ l.length then l.take n :: str_grouperF n fuel (l.drop n)
    else []

/-- Python `str_grouper(n, iterable)` from the source: `zip` of `n` copies of
one shared iterator, i.e. consecutive chunks of size `n` consumed left to
right, with a trailing incomplete chunk silently dropped. -/
def str_grouper (n : Nat) (l : List Char) : List (List Char) :=
  str_grouperF n l.length l

/-- Python `convert_mac(mac)` from the source: if the string already contains
a colon it is returned unchanged, otherwise it is lower-cased, chopped into
chunks of 2 by `str_grouper`, and the chunks are joined with `":"`. -/
def convert_mac (mac : String) : String :=
  if pyIn ":" mac then mac
  else String.intercalate ":" ((str_grouper 2 (pyLower mac).data).map String.mk)

/-- One CSV row of the configuration ledger (`group,name,mac`). -/
structure Record where
  group : String
  name : String
  mac : String
deriving DecidableEq

/-- The normalized MAC the round computes for a row
(`mac = convert_mac(ap["mac"])`). -/
def macOf (ap : Record) : String :=
  convert_mac ap.mac

/-- The guard `len(mac) < 10` that makes `apply_conf_csv` skip a row
(`continue  # ignore blank/bad lines`). -/
def apDropped (ap : Record) : Bool :=
  decide ((macOf ap).length < 10)

/-- The presence check `mac not in stdout_s`, negated: the row's normalized
MAC occurs in the output of `show ap database long | include {mac}`.
`out` maps the queried MAC to that raw controller output. -/
def apPresent (out : String → String) (ap : Record) : Bool :=
  pyIn (macOf ap) (out (macOf ap))

/-- One `client.exec_command` call issued by a reconciliation round, tagged
with the strings the command was built from. -/
inductive Ev where
  | query (mac : String)
  | rename (mac name : String)
  | regroup (mac group : String)
deriving DecidableEq

/-- The exact command string each call sends to the controller. -/
def cmdOf : Ev → String
  | Ev.query mac => "show ap database long | include " ++ mac
  | Ev.rename mac name => "ap-rename wired-mac " ++ mac ++ " " ++ name
  | Ev.regroup mac group => "ap-regroup wired-mac " ++ mac ++ " " ++ group

/-- Whether a call mutates controller state (rename/regroup; the presence
query is read-only). -/
def evIsMutation : Ev → Bool
  | Ev.query _ => false
  | Ev.rename _ _ => true
  | Ev.regroup _ _ => true

/-- The MAC string an issued call was built with. -/
def evMac : Ev → String
  | Ev.query mac => mac
  | Ev.rename mac _ => mac
  | Ev.regroup mac _ => mac

/-- The calls one row of the loop body issues: nothing when the length guard
fires; the presence query alone when the AP is absent; query, rename, regroup
when the AP is present. -/
def apEvents (out : String → String) (ap : Record) : List Ev :=
  if apDropped ap then []
  else if !apPresent out ap then [Ev.query (macOf ap)]
  else [Ev.query (macOf ap), Ev.rename (macOf ap) ap.name,
        Ev.regroup (macOf ap) ap.group]

/-- Accumulated state of the `for ap in todo` loop in `apply_conf_csv`:
the issued commands and the `done` and `still_needed` lists. -/
structure RoundState where
  events : List Ev
  done : List Record
  still_needed : List Record
deriving DecidableEq

/-- The body of `for ap in todo` in `apply_conf_csv`, lines 213–237 of the
source: skip short MACs, query presence, either retain the row in
`still_needed` or issue rename then regroup and record it in `done`. -/
def roundStep (out : String → String) (st : RoundState) (ap : Record) : RoundState :=
  if apDropped ap then st
  else if !apPresent out ap then
    { st with
      events := st.events ++ [Ev.query (macOf ap)],
      still_needed := st.still_needed ++ [ap] }
  else
    { st with
      events := st.events ++ [Ev.query (macOf ap), Ev.rename (macOf ap) ap.name,
                              Ev.regroup (macOf ap) ap.group],
      done := st.done ++ [ap] }

/-- One full pass of the reconciliation loop over the loaded rows. -/
def runRound (out : String → String) (todo : List Record) : RoundState :=
  todo.foldl (roundStep out) ⟨[], [], []⟩

/-- The CSV data row written for a record: `writer.writerow([ap["group"],
ap["name"], ap["mac"]])` with comma-free fields rendered verbatim. -/
def rowOf (ap : Record) : String :=
  ap.group ++ "," ++ ap.name ++ "," ++ ap.mac

/-- The rows of the persisted ledger: the header `group,name,mac` followed by
one data row per record, in list order. -/
def ledgerRows (l : List Record) : List String :=
  "group,name,mac" :: l.map rowOf

/-- The full text of the persisted ledger (Python's `csv.writer` terminates
each row with CR LF). -/
def ledgerText (l : List Record) : String :=
  (ledgerRows l).foldl (fun acc row => acc ++ row ++ "\r\n") ""

/-- A filesystem operation performed by the persist step. -/
inductive FsOp where
  | write (p c : String)
  | rename (src dst : String)
deriving DecidableEq

/-- The persist step of `apply_conf_csv`, lines 238–243 of the source: write
the whole new ledger to the sibling path `path + ".swp"`, then a single
`os.rename(path + ".swp", path)` over the original path. -/
def persistOps (path : String) (still : List Record) : List FsOp :=
  [FsOp.write (path ++ ".swp") (ledgerText still),
   FsOp.rename (path ++ ".swp") path]

/-- Effect of one filesystem operation on a name-to-content map. -/
def fsApply (fs : String → Option String) : FsOp → (String → Option String)
  | FsOp.write p c => fun q => if q = p then some c else fs q
  | FsOp.rename src dst => fun q =>
      if q = dst then fs src else if q = src then none else fs q

/-- Run a list of filesystem operations in order. -/
def fsRun (fs : String → Option String) (ops : List FsOp) : String → Option String :=
  ops.foldl fsApply fs

/-- Python's whitespace class for `str.split()` with no argument. -/
def pyWs (c : Char) : Bool :=
  c == ' ' || c == '\t' || c == '\n' || c == '\r' || c == '\x0b' || c == '\x0c'

/-- Worker for `str.split()`: maximal runs of non-whitespace characters. -/
def splitWsAux : List Char → List Char → List String
  | [], acc => if acc.isEmpty then [] else [String.mk acc.reverse]
  | c :: rest, acc =>
    if pyWs c then
      if acc.isEmpty then splitWsAux rest []
      else String.mk acc.reverse :: splitWsAux rest []
    else splitWsAux rest (c :: acc)

/-- Python `s.split()` (no separator argument): whitespace-delimited tokens,
empty tokens discarded. -/
def pySplit (s : String) : List String :=
  splitWsAux s.data []

/-- `attrs[0]` for a line that has at least one token; defaults to the empty
string on an all-whitespace line (unreachable for kept lines, which start
with a non-blank character). -/
def pyFirstToken (s : String) : String :=
  (pySplit s).headD ""

/-- Worker for `str.splitlines()`: split at LF, CR, and CR LF, none of which
are kept; no trailing empty line is produced. -/
def splitlinesAux : List Char → List Char → List String
  | [], acc => if acc.isEmpty then [] else [String.mk acc.reverse]
  | '\r' :: '\n' :: rest, acc => String.mk acc.reverse :: splitlinesAux rest []
  | '\r' :: rest, acc => String.mk acc.reverse :: splitlinesAux rest []
  | '\n' :: rest, acc => String.mk acc.reverse :: splitlinesAux rest []
  | c :: rest, acc => splitlinesAux rest (c :: acc)

/-- Python `s.splitlines()` restricted to the line breaks that occur in
controller output (LF, CR, CR LF). -/
def pySplitlines (s : String) : List String :=
  splitlinesAux s.data []

/-- The suffix handling in `create_table`: `name[-4:].lower() == "-old"`
strips 4 characters, else `name[-3:].lower() == "old"` strips 3. -/
def stripOld (name : String) : String :=
  if pyLower (pyTakeLast 4 name) = "-old" then pyDropLast 4 name
  else if pyLower (pyTakeLast 3 name) = "old" then pyDropLast 3 name
  else name

/-- The parsing core of `create_table`, lines 115–132 of the source: for each
line of the raw `show ap database long group {g}` output, skip it when
`len(ap) < 5 or ap[0:3] != "AP-"`, otherwise take the first
whitespace-delimited token and strip a trailing `-old`/`old` suffix. -/
def create_table_names (raw : String) : List String :=
  (pySplitlines raw).filterMap fun ap =>
    if ap.length < 5 ∨ pyTake 3 ap ≠ "AP-" then none
    else some (stripOld (pyFirstToken ap))

/-- Spec-side description of the MAC grouping (§4.1 of the spec): consume the
characters left to right in fixed-size groups of 2; a trailing character that
does not fill a complete group is silently dropped. -/
def chunkPairs : List Char → List (List Char)
  | a :: b :: rest => [a, b] :: chunkPairs rest
  | _ => []

/-- Spec-side description of the suffix rule of `parseGroupListing` (§4.2):
a discovered name ending in the case-insensitive suffix `"-old"` or `"old"`
has that suffix stripped. -/
def stripOldSuffixSpec (name : String) : String :=
  if ("-old".data).isSuffixOf (pyLower name).data then pyDropLast 4 name
  else if ("old".data).isSuffixOf (pyLower name).data then pyDropLast 3 name
  else name

/-- Spec-side `parseGroupListing` (§4.2): a line is an access-point record
only if it is at least 5 characters long and begins with the literal prefix
`"AP-"`; the first whitespace-delimited token of such a line is the device
name, with a trailing `-old`/`old` suffix stripped; every other line is
ignored. -/
def parseGroupListing (raw : String) : List String :=
  (pySplitlines raw).filterMap fun line =>
    if 5 ≤ line.length ∧ ("AP-".data).isPrefixOf line.data then
      some (stripOldSuffixSpec (pyFirstToken line))
    else none

lemma str_grouperF_two : ∀ (fuel : Nat) (l : List Char), l.length ≤ fuel →
    str_grouperF 2 fuel l = chunkPairs l := by
  intro fuel
  induction fuel with
  | zero =>
    intro l hl
    have : l = [] := List.length_eq_zero.mp (Nat.le_zero.mp hl)
    subst this
    rfl
  | succ n ih =>
    intro l hl
    match l with
    | [] => rfl
    | [a] => rfl
    | a :: b :: rest =>
      have hlen : (0 < 2 ∧ 2 ≤ (a :: b :: rest).length) := by
        simp
      rw [str_grouperF, if_pos hlen, chunkPairs]
      simp only [List.take, List.drop]
      rw [ih rest (by simp at hl; omega)]

lemma str_grouper_two (l : List Char) : str_grouper 2 l = chunkPairs l :=
  str_grouperF_two l.length l (Nat.le_refl _)

lemma chunkPairs_mem_length : ∀ (l : List Char), ∀ g ∈ chunkPairs l, g.length = 2
  | [] => by simp [chunkPairs]
  | [a] => by simp [chunkPairs]
  | a :: b :: rest => by
    intro g hg
    rw [chunkPairs] at hg
    rcases List.mem_cons.mp hg with h | h
    · subst h; rfl
    · exact chunkPairs_mem_length rest g h

/-- C7: for every input string not containing a colon, `convert_mac`
lower-cases the string and joins the consecutive groups of exactly 2
characters with colons, consuming the input left to right and silently
dropping a trailing incomplete group; in particular
`convert_mac "aabbccddeeff" = "aa:bb:cc:dd:ee:ff"` and
`convert_mac "abc" = "ab"`. -/
theorem convert_mac_grouping (s : String) (h : pyIn ":" s = false) :
    convert_mac s = String.intercalate ":" ((chunkPairs (pyLower s).data).map String.mk)
    ∧ (∀ g ∈ chunkPairs (pyLower s).data, g.length = 2)
    ∧ convert_mac "aabbccddeeff" = "aa:bb:cc:dd:ee:ff"
    ∧ convert_mac "abc" = "ab" := by
  refine ⟨?_, chunkPairs_mem_length _, by decide, by decide⟩
  rw [convert_mac, if_neg (by simp [h]), str_grouper_two]

theorem convert_mac_grouping_witness :
    pyIn ":" "aabbccddeeff" = false
    ∧ convert_mac "aabbccddeeff"
        = String.intercalate ":" ((chunkPairs (pyLower "aabbccddeeff").data).map String.mk) :=
  ⟨by decide, (convert_mac_grouping "aabbccddeeff" (by decide)).1⟩

/-- C8: for every input string that already contains a colon, `convert_mac`
returns it unchanged, and hence `convert_mac` is idempotent on every such
input. -/
theorem convert_mac_colon_fixed (s : String) (h : pyIn ":" s = true) :
    convert_mac s = s ∧ convert_mac (convert_mac s) = convert_mac s := by
  have h1 : convert_mac s = s := by rw [convert_mac, if_pos h]
  exact ⟨h1, by rw [h1]; exact h1⟩

theorem convert_mac_colon_fixed_witness :
    pyIn ":" "aa:bb:cc" = true
    ∧ (convert_mac "aa:bb:cc" = "aa:bb:cc"
       ∧ convert_mac (convert_mac "aa:bb:cc") = convert_mac "aa:bb:cc") :=
  ⟨by decide, convert_mac_colon_fixed "aa:bb:cc" (by decide)⟩

lemma foldl_roundStep (out : String → String) (todo : List Record) :
    ∀ st : RoundState,
      todo.foldl (roundStep out) st =
        { events := st.events ++ todo.flatMap (apEvents out),
          done := st.done ++ todo.filter (fun ap => !apDropped ap && apPresent out ap),
          still_needed :=
            st.still_needed ++ todo.filter (fun ap => !apDropped ap && !apPresent out ap) } := by
  induction todo with
  | nil => intro st; simp
  | cons ap rest ih =>
    intro st
    rw [List.foldl_cons, ih]
    cases h1 : apDropped ap
    · cases h2 : apPresent out ap
      · simp [roundStep, apEvents, h1, h2, List.filter_cons, List.flatMap_cons,
              List.append_assoc]
      · simp [roundStep, apEvents, h1, h2, List.filter_cons, List.flatMap_cons,
              List.append_assoc]
    · simp [roundStep, apEvents, h1, List.filter_cons, List.flatMap_cons]

lemma runRound_events (out : String → String) (todo : List Record) :
    (runRound out todo).events = todo.flatMap (apEvents out) := by
  rw [runRound, foldl_roundStep]
  simp

lemma runRound_done (out : String → String) (todo : List Record) :
    (runRound out todo).done
      = todo.filter (fun ap => !apDropped ap && apPresent out ap) := by
  rw [runRound, foldl_roundStep]
  simp

lemma runRound_still (out : String → String) (todo : List Record) :
    (runRound out todo).still_needed
      = todo.filter (fun ap => !apDropped ap && !apPresent out ap) := by
  rw [runRound, foldl_roundStep]
  simp

/-- C10: the persisted ledger lists the StillPending records in the same
relative order in which they appeared in the loaded ledger — `still_needed`
is a sublist (order-preserving selection) of the loaded row list. -/
theorem still_needed_order_preserved (out : String → String) (todo : List Record) :
    ((runRound out todo).still_needed).Sublist todo := by
  rw [runRound_still]
  exact List.filter_sublist todo

/-- C9: every presence query and every rename/regroup command a round issues
is built from a normalized MAC of length at least 10; in particular no
presence test is ever evaluated with the empty string. -/
theorem round_macs_guarded (out : String → String) (todo : List Record) (e : Ev)
    (he : e ∈ (runRound out todo).events) :
    10 ≤ (evMac e).length ∧ evMac e ≠ "" := by
  rw [runRound_events] at he
  obtain ⟨ap, -, hin⟩ := List.mem_flatMap.mp he
  rw [apEvents] at hin
  cases h1 : apDropped ap
  · rw [h1] at hin
    have hlen : 10 ≤ (macOf ap).length := by
      have h1' := h1
      simp only [apDropped, decide_eq_false_iff_not, Nat.not_lt] at h1'
      exact h1'
    have hmac : evMac e = macOf ap := by
      cases h2 : apPresent out ap
      · rw [h2] at hin
        simp at hin
        subst hin
        rfl
      · rw [h2] at hin
        simp at hin
        rcases hin with rfl | rfl | rfl <;> rfl
    refine ⟨hmac ▸ hlen, ?_⟩
    rw [hmac]
    intro hempty
    rw [hempty] at hlen
    simp at hlen
  · rw [h1] at hin
    simp at hin

theorem round_macs_guarded_witness :
    (Ev.query "aa:bb:cc:dd:ee:ff"
        ∈ (runRound (fun _ => "zz aa:bb:cc:dd:ee:ff zz")
            [(⟨"g1", "n1", "aabbccddeeff"⟩ : Record)]).events)
    ∧ (10 ≤ (evMac (Ev.query "aa:bb:cc:dd:ee:ff")).length
       ∧ evMac (Ev.query "aa:bb:cc:dd:ee:ff") ≠ "") :=
  ⟨by decide,
   round_macs_guarded (fun _ => "zz aa:bb:cc:dd:ee:ff zz")
     [(⟨"g1", "n1", "aabbccddeeff"⟩ : Record)]
     (Ev.query "aa:bb:cc:dd:ee:ff") (by decide)⟩

/-- C5: the mutation commands a round issues consist, for each Resolved
record in order, of exactly its rename command immediately followed by its
regroup command — rename before regroup, with no other mutation interleaved
between them. -/
theorem rename_before_regroup (out : String → String) (todo : List Record) :
    ((runRound out todo).events).filter evIsMutation
      = ((runRound out todo).done).flatMap
          (fun ap => [Ev.rename (macOf ap) ap.name, Ev.regroup (macOf ap) ap.group]) := by
  rw [runRound_events, runRound_done]
  induction todo with
  | nil => rfl
  | cons ap rest ih =>
    rw [List.flatMap_cons, List.filter_append, ih, List.filter_cons]
    cases h1 : apDropped ap
    · cases h2 : apPresent out ap
      · simp [apEvents, evIsMutation, h1, h2]
      · simp [apEvents, evIsMutation, h1, h2]
    · simp [apEvents, h1]

/-- C4: when no loaded record resolves and none is dropped by the MAC-length
guard, the persisted ledger has row content byte-identical to the loaded
one — the same header row and the same data rows (here even in the same
order). -/
theorem round_trip_rows (out : String → String) (todo : List Record)
    (h : ∀ ap ∈ todo, apDropped ap = false ∧ apPresent out ap = false) :
    ledgerRows ((runRound out todo).still_needed) = ledgerRows todo := by
  rw [runRound_still]
  have : todo.filter (fun ap => !apDropped ap && !apPresent out ap) = todo := by
    rw [List.filter_eq_self]
    intro ap hap
    rcases h ap hap with ⟨h1, h2⟩
    rw [h1, h2]
    rfl
  rw [this]

theorem round_trip_rows_witness :
    (∀ ap ∈ [(⟨"g1", "n1", "aabbccddeeff"⟩ : Record)],
        apDropped ap = false ∧ apPresent (fun _ => "") ap = false)
    ∧ ledgerRows ((runRound (fun _ => "") [(⟨"g1", "n1", "aabbccddeeff"⟩ : Record)]).still_needed)
        = ledgerRows [(⟨"g1", "n1", "aabbccddeeff"⟩ : Record)] :=
  ⟨by decide, round_trip_rows (fun _ => "") [(⟨"g1", "n1", "aabbccddeeff"⟩ : Record)] (by decide)⟩

/-- C1 counterexample: a record whose `mac` field is the empty string is NOT
written back into the persisted ledger — after one round over the singleton
ledger the StillPending set is empty and the persisted output is the bare
header, contradicting the claim that only non-empty too-short MACs are
dropped while the empty case is preserved. -/
theorem empty_mac_dropped_cex :
    (runRound (fun _ => "") [(⟨"g", "n", ""⟩ : Record)]).still_needed = []
    ∧ ledgerRows ((runRound (fun _ => "") [(⟨"g", "n", ""⟩ : Record)]).still_needed)
        = ["group,name,mac"]
    ∧ (⟨"g", "n", ""⟩ : Record).mac = "" := by
  refine ⟨by decide, by decide, rfl⟩

/-- C1 (amended): a record whose normalized MAC is shorter than 10
characters — which includes every record with `mac = ""` — is excluded from
the presence check and from the Resolved set (it generates no controller
calls at all), and it is also silently dropped from the persisted ledger
rather than written back into StillPending. -/
theorem short_mac_inert_and_dropped (out : String → String) (todo : List Record)
    (ap : Record) (hlen : (macOf ap).length < 10) :
    apEvents out ap = []
    ∧ ap ∉ (runRound out todo).done
    ∧ ap ∉ (runRound out todo).still_needed := by
  have hd : apDropped ap = true := by
    rw [apDropped]
    exact decide_eq_true hlen
  refine ⟨by rw [apEvents, if_pos hd], ?_, ?_⟩
  · rw [runRound_done]
    intro hmem
    have := (List.mem_filter.mp hmem).2
    rw [hd] at this
    simp at this
  · rw [runRound_still]
    intro hmem
    have := (List.mem_filter.mp hmem).2
    rw [hd] at this
    simp at this

theorem short_mac_inert_and_dropped_witness :
    ((macOf (⟨"g", "n", ""⟩ : Record)).length < 10)
    ∧ (apEvents (fun _ => "") (⟨"g", "n", ""⟩ : Record) = []
       ∧ (⟨"g", "n", ""⟩ : Record) ∉ (runRound (fun _ => "") [(⟨"g", "n", ""⟩ : Record)]).done
       ∧ (⟨"g", "n", ""⟩ : Record)
           ∉ (runRound (fun _ => "") [(⟨"g", "n", ""⟩ : Record)]).still_needed) :=
  ⟨by decide,
   short_mac_inert_and_dropped (fun _ => "") [(⟨"g", "n", ""⟩ : Record)]
     (⟨"g", "n", ""⟩ : Record) (by decide)⟩

/-- C2 counterexample: with record A reachable (its normalized MAC occurs in
the presence-query output) and record B not reachable, but B's raw MAC
`"zzzz"` normalizing to the 5-character string `"zz:zz"`, one round persists
an empty ledger — B is dropped by the length guard instead of being kept, so
the persisted ledger does not contain exactly B. -/
theorem partial_convergence_cex :
    apPresent (fun m => if m = "aa:bb:cc:dd:ee:ff" then "x aa:bb:cc:dd:ee:ff y" else "")
      (⟨"g1", "n1", "aabbccddeeff"⟩ : Record) = true
    ∧ apPresent (fun m => if m = "aa:bb:cc:dd:ee:ff" then "x aa:bb:cc:dd:ee:ff y" else "")
        (⟨"g2", "n2", "zzzz"⟩ : Record) = false
    ∧ (runRound (fun m => if m = "aa:bb:cc:dd:ee:ff" then "x aa:bb:cc:dd:ee:ff y" else "")
        [(⟨"g1", "n1", "aabbccddeeff"⟩ : Record), (⟨"g2", "n2", "zzzz"⟩ : Record)]).still_needed
        = [] := by
  refine ⟨by decide, by decide, by decide⟩

/-- C2 (amended): for every ledger `[A, B]` where A's normalized MAC occurs
in the presence-query output, B's does not, and B's normalized MAC passes
the length guard (length at least 10), one round persists exactly B, with
its group, name and mac fields byte-identical to the loaded ones, and no
row for A. -/
theorem partial_convergence_amended (out : String → String) (A B : Record)
    (hA : apPresent out A = true) (hB : apPresent out B = false)
    (hBlen : 10 ≤ (macOf B).length) :
    (runRound out [A, B]).still_needed = [B]
    ∧ ledgerRows ((runRound out [A, B]).still_needed)
        = ["group,name,mac", B.group ++ "," ++ B.name ++ "," ++ B.mac] := by
  have hBd : apDropped B = false := by
    rw [apDropped]
    simpa using Nat.not_lt.mpr hBlen
  have hstill : (runRound out [A, B]).still_needed = [B] := by
    rw [runRound_still]
    simp [List.filter_cons, hA, hB, hBd]
  exact ⟨hstill, by rw [hstill]; rfl⟩

theorem partial_convergence_amended_witness :
    (apPresent (fun m => if m = "aa:bb:cc:dd:ee:ff" then "x aa:bb:cc:dd:ee:ff y" else "")
        (⟨"g1", "n1", "aabbccddeeff"⟩ : Record) = true)
    ∧ (apPresent (fun m => if m = "aa:bb:cc:dd:ee:ff" then "x aa:bb:cc:dd:ee:ff y" else "")
        (⟨"g2", "n2", "001122334455"⟩ : Record) = false)
    ∧ (10 ≤ (macOf (⟨"g2", "n2", "001122334455"⟩ : Record)).length)
    ∧ ((runRound (fun m => if m = "aa:bb:cc:dd:ee:ff" then "x aa:bb:cc:dd:ee:ff y" else "")
          [(⟨"g1", "n1", "aabbccddeeff"⟩ : Record),
           (⟨"g2", "n2", "001122334455"⟩ : Record)]).still_needed
          = [(⟨"g2", "n2", "001122334455"⟩ : Record)]
        ∧ ledgerRows ((runRound
            (fun m => if m = "aa:bb:cc:dd:ee:ff" then "x aa:bb:cc:dd:ee:ff y" else "")
            [(⟨"g1", "n1", "aabbccddeeff"⟩ : Record),
             (⟨"g2", "n2", "001122334455"⟩ : Record)]).still_needed)
          = ["group,name,mac", "g2" ++ "," ++ "n2" ++ "," ++ "001122334455"]) :=
  ⟨by decide, by decide, by decide,
   partial_convergence_amended
     (fun m => if m = "aa:bb:cc:dd:ee:ff" then "x aa:bb:cc:dd:ee:ff y" else "")
     (⟨"g1", "n1", "aabbccddeeff"⟩ : Record) (⟨"g2", "n2", "001122334455"⟩ : Record)
     (by decide) (by decide) (by decide)⟩

lemma swp_ne_path (path : String) : path ++ ".swp" ≠ path := by
  intro he
  have hlen := congrArg String.length he
  rw [String.length_append] at hlen
  have : (".swp" : String).length = 4 := rfl
  omega

/-- C3: the persist step writes the full new ledger content to the sibling
path `path ++ ".swp"` and installs it with one atomic rename over the
original path; no operation writes the original path in place, and after
executing any prefix of the persist step's operations the original path
still holds either the old or the new ledger text — never nothing and never
a third content. -/
theorem persist_crash_atomic (path old : String) (still : List Record)
    (pre suff : List FsOp) (h : pre ++ suff = persistOps path still) :
    (∀ c, FsOp.write path c ∉ persistOps path still)
    ∧ (fsRun (fun q => if q = path then some old else none) pre path = some old
       ∨ fsRun (fun q => if q = path then some old else none) pre path
           = some (ledgerText still)) := by
  have hne : path ≠ path ++ ".swp" := (swp_ne_path path).symm
  constructor
  · intro c hc
    rw [persistOps] at hc
    rcases List.mem_cons.mp hc with h1 | h1
    · exact (swp_ne_path path) (FsOp.write.inj h1).1.symm
    · exact absurd (List.mem_singleton.mp h1) (by simp)
  · match pre, h with
    | [], _ =>
      left
      simp [fsRun]
    | [a], h =>
      rw [persistOps] at h
      simp only [List.singleton_append, List.cons.injEq] at h
      rw [h.1]
      left
      simp [fsRun, fsApply, hne]
    | a :: b :: rest, h =>
      rw [persistOps] at h
      simp only [List.cons_append, List.cons.injEq] at h
      obtain ⟨ha, hb, hrest⟩ := h
      have hrest' : rest = [] := by
        cases rest with
        | nil => rfl
        | cons x xs => simp at hrest
      subst ha hb hrest'
      right
      simp [fsRun, fsApply, hne]

theorem persist_crash_atomic_witness :
    ([FsOp.write ("ledger.csv" ++ ".swp") (ledgerText [])]
        ++ [FsOp.rename ("ledger.csv" ++ ".swp") "ledger.csv"]
        = persistOps "ledger.csv" [])
    ∧ ((∀ c, FsOp.write "ledger.csv" c ∉ persistOps "ledger.csv" [])
       ∧ (fsRun (fun q => if q = "ledger.csv" then some "old" else none)
            [FsOp.write ("ledger.csv" ++ ".swp") (ledgerText [])] "ledger.csv" = some "old"
          ∨ fsRun (fun q => if q = "ledger.csv" then some "old" else none)
              [FsOp.write ("ledger.csv" ++ ".swp") (ledgerText [])] "ledger.csv"
              = some (ledgerText []))) :=
  ⟨rfl,
   persist_crash_atomic "ledger.csv" "old" []
     [FsOp.write ("ledger.csv" ++ ".swp") (ledgerText [])]
     [FsOp.rename ("ledger.csv" ++ ".swp") "ledger.csv"] rfl⟩

lemma endsWithCI (s suf : String) (n : Nat) (hn : suf.data.length = n) :
    pyLower (pyTakeLast n s) = suf ↔ suf.data.isSuffixOf (pyLower s).data = true := by
  rw [String.ext_iff]
  rw [ List.isSuffixOf_iff_suffix, List.suffix_iff_eq_drop]
  show (s.data.drop (s.data.length - n)).map Char.toLower = suf.data ↔ _
  rw [List.map_drop]
  rw [show (pyLower s).data = s.data.map Char.toLower from rfl]
  rw [List.length_map, hn]
  exact eq_comm

lemma stripOld_eq_spec (name : String) : stripOld name = stripOldSuffixSpec name := by
  rw [stripOld, stripOldSuffixSpec]
  rw [if_congr (endsWithCI name "-old" 4 rfl) rfl
      (if_congr (endsWithCI name "old" 3 rfl) rfl rfl)]

lemma startsWithAP (s : String) :
    pyTake 3 s = "AP-" ↔ ("AP-" : String).data.isPrefixOf s.data = true := by
  rw [String.ext_iff]
  rw [ List.isPrefixOf_iff_prefix, List.prefix_iff_eq_take]
  rw [show ("AP-" : String).data.length = 3 from rfl]
  show s.data.take 3 = ("AP-" : String).data ↔ _
  exact eq_comm

/-- C6: the group-listing parse of `create_table` coincides, on every raw
controller listing, with the spec's `parseGroupListing` — a line is an
access-point record only if it is at least 5 characters long and begins with
the literal prefix `AP-`, the first whitespace-delimited token of such a line
is the device name, a trailing case-insensitive `-old`/`old` suffix is
stripped, and every other line is ignored; in particular a listing with a
banner line, the line `AP-Lobby1-old   wired  ...`, and a footer line yields
exactly the one name `AP-Lobby1`. -/
theorem group_listing_parse :
    (∀ raw, create_table_names raw = parseGroupListing raw)
    ∧ create_table_names "AP Database\nAP-Lobby1-old   wired  ...\nTotal APs:1"
        = ["AP-Lobby1"] := by
  constructor
  · intro raw
    rw [create_table_names, parseGroupListing]
    apply List.filterMap_congr
    intro line hline
    by_cases hkeep : line.length < 5 ∨ pyTake 3 line ≠ "AP-"
    · rw [if_pos hkeep, if_neg]
      intro hspec
      rcases hkeep with h | h
      · omega
      · exact h ((startsWithAP line).mpr hspec.2)
    · push_neg at hkeep
      rw [if_neg (by push_neg; exact hkeep), if_pos]
      · rw [stripOld_eq_spec]
      · exact ⟨Nat.not_lt.mp (by omega), (startsWithAP line).mp hkeep.2⟩
  · decide
